import Mathlib

set_option maxRecDepth 8000

namespace Intellens

/-!
Shallow embedding of the service/language detection core of the Intellens
repository (src/backend/utils/auto_service_detector.py,
src/backend/utils/multi_parser.py, and the call site in src/backend/main.py).

Python strings are modelled as Lean strings, processed as lists of
characters.  Each concrete regular expression of the source is hand
compiled into an executable matcher; re.finditer / re.findall are modelled
by a left-to-right non-overlapping scanner.  Python dicts (which preserve
insertion order) are modelled as association lists with in-place update.
-/

/-! ### Character classes of the source patterns (ASCII, as in the source) -/

def isAsciiAlnum (c : Char) : Bool := c.isAlpha || c.isDigit

/-- The regex word class \w = [a-zA-Z0-9_]. -/
def isWordC (c : Char) : Bool := isAsciiAlnum c || c = '_'

/-- Python regex \s over ASCII text: space, tab, newline, carriage return,
vertical tab, form feed. -/
def isPySpace (c : Char) : Bool :=
  c = ' ' || c = '\t' || c = '\n' || c = '\r' || c = '\x0b' || c = '\x0c'

/-- The class [a-zA-Z0-9-]. -/
def isAlnumDash (c : Char) : Bool := isAsciiAlnum c || c = '-'

/-- The class [a-zA-Z0-9:]. -/
def isAlnumColon (c : Char) : Bool := isAsciiAlnum c || c = ':'

/-- The class [a-zA-Z0-9_-]. -/
def isModChar (c : Char) : Bool := isAsciiAlnum c || c = '_' || c = '-'

/-- The class [a-zA-Z0-9_.-]. -/
def isModDotChar (c : Char) : Bool := isAsciiAlnum c || c = '_' || c = '.' || c = '-'

/-- The class [\w.] used by parse_terraform_deps. -/
def isWordDot (c : Char) : Bool := isWordC c || c = '.'

/-! ### Basic string helpers (Python semantics) -/

/-- Split a character list at every separator satisfying p, keeping empty
pieces, as Python str.split(sep) does for a one-character separator. -/
def splitBy (p : Char → Bool) : List Char → List (List Char)
  | [] => [[]]
  | c :: cs =>
    match splitBy p cs with
    | [] => [[]]
    | cur :: rest => if p c then [] :: cur :: rest else (c :: cur) :: rest

/-- Python content.split with a one-character separator. -/
def splitChar (sep : Char) (cs : List Char) : List (List Char) :=
  splitBy (fun c => c = sep) cs

/-- Python str.split() with no argument: split on whitespace runs, dropping
empty pieces. -/
def splitWS (cs : List Char) : List (List Char) :=
  (splitBy isPySpace cs).filter (fun w => !w.isEmpty)

/-- Python str.strip(). -/
def pyStrip (cs : List Char) : List Char :=
  ((cs.dropWhile isPySpace).reverse.dropWhile isPySpace).reverse

/-- Python str.capitalize(): first character upper case, the rest lower case. -/
def pyCapitalize : List Char → List Char
  | [] => []
  | c :: cs => c.toUpper :: cs.map Char.toLower

/-- Lower-case every character, as Python str.lower() on ASCII input. -/
def lowerStr (s : String) : String := String.mk (s.data.map Char.toLower)

def isPrefixL : List Char → List Char → Bool
  | [], _ => true
  | _ :: _, [] => false
  | a :: as, b :: bs => a = b && isPrefixL as bs

/-- Substring containment, as the Python `x in y` test on strings. -/
def containsSubL (needle : List Char) : List Char → Bool
  | [] => isPrefixL needle []
  | c :: cs => isPrefixL needle (c :: cs) || containsSubL needle cs

def containsSub (needle hay : String) : Bool := containsSubL needle.data hay.data

/-- True when the string starts with a dot, as Python file.startswith(.). -/
def startsDot (s : String) : Bool :=
  match s.data with
  | '.' :: _ => true
  | _ => false

/-- os.path.splitext extension part: the suffix from the last dot of the
name, except that a name whose characters before that dot are all dots
(for example a bare dotfile name) has no extension. -/
def pyExt (s : String) : String :=
  let rev := s.data.reverse
  let pre := rev.takeWhile (fun c => c ≠ '.')
  match rev.drop pre.length with
  | '.' :: rest =>
    if rest.any (fun c => c ≠ '.') then String.mk ('.' :: pre.reverse) else ""
  | _ => ""

/-- os.path.basename of a relative path with forward slashes. -/
def baseName (p : String) : String :=
  String.mk ((p.data.reverse.takeWhile (fun c => c ≠ '/')).reverse)

/-! ### A tiny matching engine for the concrete source regexes

A matcher receives the character before the current position (for word
boundaries) and the remaining input; on success it returns the matched
text (group 0), the optional first capture group, and the rest of the
input.  finditer scans left to right, non-overlapping, exactly like
re.finditer. -/

abbrev MatchRes := List Char × Option (List Char) × List Char

abbrev Matcher := Option Char → List Char → Option MatchRes

/-- Case-insensitive literal (the pattern is given lower case); returns the
matched original characters and the rest. -/
def litCI : List Char → List Char → Option (List Char × List Char)
  | [], cs => some ([], cs)
  | _ :: _, [] => none
  | p :: ps, c :: cs =>
    if c.toLower = p then (litCI ps cs).map (fun r => (c :: r.1, r.2)) else none

/-- Case-sensitive literal. -/
def litCS : List Char → List Char → Option (List Char × List Char)
  | [], cs => some ([], cs)
  | _ :: _, [] => none
  | p :: ps, c :: cs =>
    if c = p then (litCS ps cs).map (fun r => (c :: r.1, r.2)) else none

/-- Maximal run of characters of a class (a greedy cls* / cls+ with nothing
after it that could force backtracking in the source patterns). -/
def takeCls (p : Char → Bool) : List Char → List Char × List Char
  | [] => ([], [])
  | c :: cs =>
    if p c then
      let r := takeCls p cs
      (c :: r.1, r.2)
    else ([], c :: cs)

/-- One non-overlapping left-to-right scan, as re.finditer: at every
position try the matcher; on a match emit it and resume after its end.
The fuel argument bounds the recursion by the input length. -/
def finditerAux (m : Matcher) : Nat → Option Char → List Char →
    List (List Char × Option (List Char))
  | 0, _, _ => []
  | fuel + 1, prev, cs =>
    match m prev cs with
    | some (g0, g1, rest) =>
      if g0.isEmpty then
        match cs with
        | [] => []
        | c :: cs2 => finditerAux m fuel (some c) cs2
      else (g0, g1) :: finditerAux m fuel (some (g0.getLastD ' ')) rest
    | none =>
      match cs with
      | [] => []
      | c :: cs2 => finditerAux m fuel (some c) cs2

def finditer (m : Matcher) (cs : List Char) : List (List Char × Option (List Char)) :=
  finditerAux m (cs.length + 1) none cs

/-- match.group(1) if match.groups() else match.group(0), as in the source. -/
def matchText (g0 : List Char) (g1 : Option (List Char)) : List Char := g1.getD g0

/-! ### The seven aws_patterns of auto_service_detector.py (IGNORECASE) -/

/-- Pattern aws[_-]([a-zA-Z0-9]+). -/
def mAws1 : Matcher := fun _ cs => do
  let (m1, r1) ← litCI "aws".data cs
  match r1 with
  | c :: r2 =>
    if c = '_' || c = '-' then
      let (run, r3) := takeCls isAsciiAlnum r2
      if run.isEmpty then none else some (m1 ++ c :: run, some run, r3)
    else none
  | [] => none

/-- Pattern amazonaws\.com/([a-zA-Z0-9-]+). -/
def mAws2 : Matcher := fun _ cs => do
  let (m1, r1) ← litCI "amazonaws.com/".data cs
  let (run, r2) := takeCls isAlnumDash r1
  if run.isEmpty then none else some (m1 ++ run, some run, r2)

def awsKeywords : List String :=
  ["lambda", "s3", "ec2", "rds", "dynamodb", "iot", "kinesis", "firehose",
   "greengrass", "lex", "sqs", "sns", "cloudformation", "cloudwatch",
   "apigateway", "cognito", "amplify"]

/-- Try the alternation branches in order; a branch succeeds only when the
following character keeps the trailing word boundary. -/
def tryKws : List String → List Char → Option MatchRes
  | [], _ => none
  | kw :: kws, cs =>
    match litCI kw.data cs with
    | some (m, r) =>
      if (match r with | [] => true | c :: _ => !isWordC c) then
        some (m, some m, r)
      else tryKws kws cs
    | none => tryKws kws cs

/-- Pattern \b(lambda|s3|...|amplify)\b. -/
def mAws3 : Matcher := fun prev cs =>
  let boundary := match prev with | none => true | some c => !isWordC c
  if boundary then tryKws awsKeywords cs else none

/-- Pattern @aws-sdk/([a-zA-Z0-9-]+). -/
def mAws4 : Matcher := fun _ cs => do
  let (m1, r1) ← litCI "@aws-sdk/".data cs
  let (run, r2) := takeCls isAlnumDash r1
  if run.isEmpty then none else some (m1 ++ run, some run, r2)

/-- Pattern boto3\. (no capture group). -/
def mAws5 : Matcher := fun _ cs => do
  let (m1, r1) ← litCI "boto3.".data cs
  some (m1, none, r1)

/-- Pattern aws\s+([a-zA-Z0-9]+). -/
def mAws6 : Matcher := fun _ cs => do
  let (m1, r1) ← litCI "aws".data cs
  let (sp, r2) := takeCls isPySpace r1
  if sp.isEmpty then none
  else
    let (run, r3) := takeCls isAsciiAlnum r2
    if run.isEmpty then none else some (m1 ++ sp ++ run, some run, r3)

/-- Pattern AWS::([a-zA-Z0-9:]+); IGNORECASE like the others. -/
def mAws7 : Matcher := fun _ cs => do
  let (m1, r1) ← litCI "aws::".data cs
  let (run, r2) := takeCls isAlnumColon r1
  if run.isEmpty then none else some (m1 ++ run, some run, r2)

def awsMatchers : List Matcher := [mAws1, mAws2, mAws3, mAws4, mAws5, mAws6, mAws7]

/-- Case-insensitive literal as a matcher (the cloud_patterns regexes are
all literals once the escaped dots are read off). -/
def mLitCI (lit : String) : Matcher := fun _ cs =>
  (litCI lit.data cs).map (fun r => (r.1, none, r.2))

/-- cloud_patterns of auto_service_detector.py, in dict insertion order,
with each regex written as its literal text. -/
def cloudPatterns : List (String × String) :=
  [(".s3.", "AWS S3"), (".ec2.", "AWS EC2"), (".lambda.", "AWS Lambda"),
   (".rds.", "AWS RDS"), (".dynamodb.", "AWS DynamoDB"),
   ("azure.", "Microsoft Azure"), ("gcp.", "Google Cloud Platform"),
   ("kubernetes", "Kubernetes"), ("docker", "Docker"), ("redis", "Redis"),
   ("mongodb", "MongoDB"), ("postgresql", "PostgreSQL"), ("mysql", "MySQL"),
   ("nginx", "Nginx"), ("apache", "Apache"), ("terraform", "Terraform"),
   ("express", "Express.js"), ("fastapi", "FastAPI"), ("django", "Django"),
   ("flask", "Flask"), ("react", "React"), ("vue", "Vue.js"),
   ("angular", "Angular")]

/-! ### The import patterns (no IGNORECASE flag, hence case-sensitive) -/

/-- Pattern import\s+([a-zA-Z0-9_-]+). -/
def mImp1 : Matcher := fun _ cs => do
  let (m1, r1) ← litCS "import".data cs
  let (sp, r2) := takeCls isPySpace r1
  if sp.isEmpty then none
  else
    let (run, r3) := takeCls isModChar r2
    if run.isEmpty then none else some (m1 ++ sp ++ run, some run, r3)

/-- Pattern from\s+([a-zA-Z0-9_.-]+). -/
def mImp2 : Matcher := fun _ cs => do
  let (m1, r1) ← litCS "from".data cs
  let (sp, r2) := takeCls isPySpace r1
  if sp.isEmpty then none
  else
    let (run, r3) := takeCls isModDotChar r2
    if run.isEmpty then none else some (m1 ++ sp ++ run, some run, r3)

def quoteChar1 : Char := Char.ofNat 39

def quoteChar2 : Char := Char.ofNat 34

/-- Pattern require\([QUOTE]([a-zA-Z0-9_.-]+)[QUOTE] where QUOTE is a single
or double quote. -/
def mImp3 : Matcher := fun _ cs => do
  let (m1, r1) ← litCS "require(".data cs
  match r1 with
  | q1 :: r2 =>
    if q1 = quoteChar1 || q1 = quoteChar2 then
      let (run, r3) := takeCls isModDotChar r2
      if run.isEmpty then none
      else
        match r3 with
        | q2 :: r4 =>
          if q2 = quoteChar1 || q2 = quoteChar2 then
            some (m1 ++ q1 :: run ++ [q2], some run, r4)
          else none
        | [] => none
    else none
  | [] => none

/-- Pattern @([a-zA-Z0-9_-]+)/. -/
def mImp4 : Matcher := fun _ cs =>
  match cs with
  | '@' :: r1 =>
    let (run, r2) := takeCls isModChar r1
    if run.isEmpty then none
    else
      match r2 with
      | '/' :: r3 => some ('@' :: run ++ ['/'], some run, r3)
      | _ => none
  | _ => none

def importMatchers : List Matcher := [mImp1, mImp2, mImp3, mImp4]

/-- Pattern WORD\s+WORD2\s+([a-zA-Z0-9_-]+), covering the three legacy-only
install patterns pip install, npm install, yarn add. -/
def mInstall (w1 w2 : String) : Matcher := fun _ cs => do
  let (m1, r1) ← litCS w1.data cs
  let (sp1, r2) := takeCls isPySpace r1
  if sp1.isEmpty then none
  else do
    let (m2, r3) ← litCS w2.data r2
    let (sp2, r4) := takeCls isPySpace r3
    if sp2.isEmpty then none
    else
      let (run, r5) := takeCls isModChar r4
      if run.isEmpty then none
      else some (m1 ++ sp1 ++ m2 ++ sp2 ++ run, some run, r5)

def legacyImportMatchers : List Matcher :=
  [mImp1, mImp2, mImp3, mImp4,
   mInstall "pip" "install", mInstall "npm" "install", mInstall "yarn" "add"]

/-! ### clean_service_name (auto_service_detector.py lines 4-19) -/

def stopWords : List String := ["aws", "amazon", "service"]

def joinSpaces (parts : List (List Char)) : String :=
  String.mk (List.intercalate [' '] parts)

/-- Truncation step of clean_service_name: names longer than 30 characters
are cut to 30 characters plus an ellipsis. -/
def truncate30 (s : List Char) : String :=
  if s.length > 30 then String.mk (s.take 30) ++ "..." else String.mk s

/-- clean_service_name of auto_service_detector.py.  The two successive
Python replace calls followed by split() are modelled by mapping
underscores and hyphens to spaces before whitespace-splitting. -/
def clean_service_name (service_name : String) : String :=
  let s := pyStrip service_name.data
  let parts := splitWS (s.map (fun c => if c = '_' || c = '-' then ' ' else c))
  if parts.length > 3 then
    let meaningful := (parts.take 3).filter (fun part =>
      part.length > 2 && !(stopWords.contains (String.mk (part.map Char.toLower))))
    if !meaningful.isEmpty then joinSpaces (meaningful.take 2)
    else truncate30 s
  else truncate30 s

/-! ### Data model -/

/-- One observed match: the dict {file, line, code, match} built by
auto_detect_services_with_references (the source key match is called
matched here because match is a Lean keyword). -/
structure ServiceRef where
  file : String
  line : Nat
  code : String
  matched : String
deriving DecidableEq, Repr

/-- The per-service dict {count, references}. -/
structure SvcData where
  count : Nat
  references : List ServiceRef
deriving DecidableEq, Repr

/-- A services dict, keyed by canonical name, in insertion order. -/
abbrev ServiceTally := List (String × SvcData)

/-- services[name][count] += 1 together with the append to
services[name][references]; a missing key is created from the defaultdict
default {count 0, references []} first. -/
def addRef (t : ServiceTally) (name : String) (r : ServiceRef) : ServiceTally :=
  match t with
  | [] => [(name, ⟨1, [r]⟩)]
  | (n, d) :: rest =>
    if n = name then (n, ⟨d.count + 1, d.references ++ [r]⟩) :: rest
    else (n, d) :: addRef rest name r

def foldAddRef (t : ServiceTally) (evs : List (String × ServiceRef)) : ServiceTally :=
  evs.foldl (fun a e => addRef a e.1 e.2) t

/-- services[name] += 1 on a plain int defaultdict. -/
def addCount (t : List (String × Nat)) (name : String) : List (String × Nat) :=
  match t with
  | [] => [(name, 1)]
  | (n, k) :: rest =>
    if n = name then (n, k + 1) :: rest else (n, k) :: addCount rest name

/-- The aws_service_map of auto_service_detector.py. -/
def awsServiceMap : List (String × String) :=
  [("lambda", "AWS Lambda"), ("s3", "AWS S3"), ("ec2", "AWS EC2"),
   ("rds", "AWS RDS"), ("dynamodb", "AWS DynamoDB"), ("iot", "AWS IoT Core"),
   ("kinesis", "AWS Kinesis"), ("firehose", "AWS Kinesis Data Firehose"),
   ("greengrass", "AWS IoT Greengrass"), ("lex", "Amazon Lex"),
   ("sqs", "AWS SQS"), ("sns", "AWS SNS"),
   ("cloudformation", "AWS CloudFormation"), ("cloudwatch", "AWS CloudWatch")]

/-- aws_service_map.get(match_text.lower(), f'AWS {match_text.capitalize()}')
followed by clean_service_name, shared by both detector variants. -/
def awsCanonical (mtext : List Char) : String :=
  let key := String.mk (mtext.map Char.toLower)
  match awsServiceMap.lookup key with
  | some n => clean_service_name n
  | none => clean_service_name ("AWS " ++ String.mk (pyCapitalize mtext))

/-- enumerate(lines, 1) over content.split(newline). -/
def enumLines (content : String) : List (Nat × List Char) :=
  ((splitChar '\n' content.data).enum).map (fun p => (p.1 + 1, p.2))

def stripStr (cs : List Char) : String := String.mk (pyStrip cs)

/-! ### auto_detect_services_with_references (lines 21-150)

The three passes of the source are modelled by listing, in source order,
the (canonical-name, reference) events of each pass and folding them into
the tally with addRef; the source interleaves the event computation with
the dict update, which is equivalent because matching never reads the
tally. -/

/-- Pass 1 events: for each line, for each aws pattern, for each match. -/
def awsEvents (file_path content : String) : List (String × ServiceRef) :=
  (enumLines content).flatMap (fun le =>
    awsMatchers.flatMap (fun m =>
      (finditer m le.2).map (fun g =>
        (awsCanonical (matchText g.1 g.2),
         ⟨file_path, le.1, stripStr le.2, String.mk g.1⟩))))

/-- Pass 2 events: for each line, for each cloud pattern, for each match. -/
def cloudEvents (file_path content : String) : List (String × ServiceRef) :=
  (enumLines content).flatMap (fun le =>
    cloudPatterns.flatMap (fun ps =>
      (finditer (mLitCI ps.1) le.2).map (fun g =>
        (clean_service_name ps.2,
         ⟨file_path, le.1, stripStr le.2, String.mk g.1⟩))))

/-- Pass 3 events: for each line, for each import pattern, for each match
whose captured text contains aws, react or vue (lower-cased). -/
def importEvents (file_path content : String) : List (String × ServiceRef) :=
  (enumLines content).flatMap (fun le =>
    importMatchers.flatMap (fun m =>
      (finditer m le.2).filterMap (fun g =>
        let t := String.mk ((matchText g.1 g.2).map Char.toLower)
        let ref : ServiceRef := ⟨file_path, le.1, stripStr le.2, String.mk g.1⟩
        if containsSub "aws" t then some (clean_service_name "AWS SDK", ref)
        else if containsSub "react" t then some (clean_service_name "React", ref)
        else if containsSub "vue" t then some (clean_service_name "Vue.js", ref)
        else none)))

/-- auto_detect_services_with_references: the three passes followed by the
final pruning of entries with an empty reference list. -/
def auto_detect_services_with_references (content file_path : String) : ServiceTally :=
  let t1 := foldAddRef [] (awsEvents file_path content)
  let t2 := foldAddRef t1 (cloudEvents file_path content)
  let t3 := foldAddRef t2 (importEvents file_path content)
  t3.filter (fun e => !e.2.references.isEmpty)

/-! ### auto_detect_services (legacy, lines 152-246) -/

/-- The legacy function: aws patterns are matched against the whole content
(re.findall), each cloud pattern contributes at most one count
(re.search), and the legacy import patterns attribute aws / azure /
gcp-or-google-cloud captures. -/
def auto_detect_services (content : String) : List (String × Nat) :=
  let cs := content.data
  let t1 := awsMatchers.foldl (fun t m =>
    (finditer m cs).foldl (fun t g => addCount t (awsCanonical (matchText g.1 g.2))) t) []
  let t2 := cloudPatterns.foldl (fun t ps =>
    if (finditer (mLitCI ps.1) cs).isEmpty then t
    else addCount t (clean_service_name ps.2)) t1
  let t3 := legacyImportMatchers.foldl (fun t m =>
    (finditer m cs).foldl (fun t g =>
      let mt := String.mk ((matchText g.1 g.2).map Char.toLower)
      if containsSub "aws" mt then addCount t (clean_service_name "AWS SDK")
      else if containsSub "azure" mt then addCount t (clean_service_name "Microsoft Azure")
      else if containsSub "gcp" mt || containsSub "google-cloud" mt then
        addCount t (clean_service_name "Google Cloud Platform")
      else t) t) t2
  t3

/-- The backward-compatibility view built by upload_project (main.py line
46): services = {name: data[count] for name, data in services_with_refs}. -/
def toCountView (t : ServiceTally) : List (String × Nat) :=
  t.map (fun e => (e.1, e.2.count))

/-! ### Filesystem model

A scanned tree is a list of files, each with its root-relative path (with
forward slashes) and its text decoded with errors=ignore, or none when
opening or reading the file raises.  rootOk models whether the root
directory itself exists and is readable; os.walk over a missing or
unreadable root silently yields nothing (its default onerror swallows the
error), which osWalk mirrors. -/

structure SrcFile where
  relPath : String
  data : Option String
deriving DecidableEq, Repr

structure FS where
  rootOk : Bool
  files : List SrcFile
deriving DecidableEq, Repr

def osWalk (fs : FS) : List SrcFile :=
  if fs.rootOk then fs.files else []

/-- The binary_extensions deny-list of detect_all_services_with_references
(auto_service_detector.py lines 254-259). -/
def binaryExtensions : List String :=
  [".png", ".jpg", ".jpeg", ".gif", ".bmp", ".ico", ".svg", ".webp",
   ".mp4", ".avi", ".mov", ".wmv", ".flv", ".webm",
   ".mp3", ".wav", ".ogg", ".flac", ".aac",
   ".pdf", ".doc", ".docx", ".xls", ".xlsx", ".ppt", ".pptx",
   ".zip", ".tar", ".gz", ".rar", ".7z",
   ".exe", ".dll", ".so", ".dylib", ".bin"]

/-- Per-file contribution to the project-wide service tally: the walker
skips dotfile names and binary extensions, skips unreadable files
(except: continue), and otherwise runs the reference-tracking detector on
the root-relative path. -/
def perFileServices (f : SrcFile) : ServiceTally :=
  let name := baseName f.relPath
  if startsDot name then []
  else if binaryExtensions.contains (pyExt (lowerStr name)) then []
  else
    match f.data with
    | none => []
    | some content => auto_detect_services_with_references content f.relPath

/-- all_services[service][count] += data[count] and the extend of the
reference list, creating a {0, []} default entry first. -/
def addData (t : ServiceTally) (name : String) (d : SvcData) : ServiceTally :=
  match t with
  | [] => [(name, d)]
  | (n, e) :: rest =>
    if n = name then (n, ⟨e.count + d.count, e.references ++ d.references⟩) :: rest
    else (n, e) :: addData rest name d

def mergeSvc (acc : ServiceTally) (entries : ServiceTally) : ServiceTally :=
  entries.foldl (fun a e => addData a e.1 e.2) acc

/-- detect_all_services_with_references (lines 248-285). -/
def detect_all_services_with_references (fs : FS) : ServiceTally :=
  (osWalk fs).foldl (fun acc f => mergeSvc acc (perFileServices f)) []

/-! ### Language detection

The module auto_language_detector.py is imported by multi_parser.py but is
not among the source files; its three functions are modelled from the
spec. -/

/-- Modelled from the spec: detect_language_from_shebang of the missing
module auto_language_detector.py.  Per spec section 4.1, if the first line
begins with a shebang and contains a recognized interpreter token the
corresponding language is emitted alone.  The token table lists the
interpreters named by the spec, longer tokens first so that a bash line is
not taken for sh. -/
def shebangTokens : List (String × String) :=
  [("python", "Python"), ("node", "JavaScript"), ("bash", "Bash"),
   ("ruby", "Ruby"), ("sh", "Shell")]

def detect_language_from_shebang (content : String) : Option String :=
  let first := (splitChar '\n' content.data).headD []
  match first with
  | '#' :: '!' :: _ =>
    (shebangTokens.find? (fun p => containsSubL p.1.data first)).map (fun p => p.2)
  | _ => none

/-- Modelled from the spec: the fixed ordered battery of language syntax
signatures used by detect_language_from_content of the missing module
auto_language_detector.py (spec section 4.1 step 2); every rule whose
signature occurs in the content contributes its tag. -/
def contentSignatures : List (String × List String) :=
  [("Java", ["public class", "System.out.println"]),
   ("Python", ["def __init__", "if __name__"])]

def detect_language_from_content (content _filename : String) : List String :=
  contentSignatures.filterMap (fun rule =>
    if rule.2.any (fun sg => containsSubL sg.data content.data) then some rule.1
    else none)

/-- The LANGUAGE_MAP extension table of multi_parser.py lines 8-14. -/
def LANGUAGE_MAP : List (String × String) :=
  [(".py", "Python"), (".js", "JavaScript"), (".ts", "TypeScript"),
   (".java", "Java"), (".c", "C"), (".cpp", "C++"), (".cc", "C++"),
   (".cxx", "C++"), (".h", "C/C++"), (".cs", "C#"), (".go", "Go"),
   (".rs", "Rust"), (".rb", "Ruby"), (".php", "PHP"), (".tf", "Terraform"),
   (".yml", "YAML"), (".yaml", "YAML"), (".json", "JSON"), (".sh", "Shell"),
   (".bash", "Bash"), (".dockerfile", "Docker"), (".sql", "SQL")]

/-- The per-file language list of multi_parser.py lines 100-111: the
shebang language alone when present, otherwise the content-rule languages,
with the extension mapping as fallback when the content rules yield
nothing. -/
def fileLanguages (content fname : String) : List String :=
  match detect_language_from_shebang content with
  | some l => [l]
  | none =>
    let detected := detect_language_from_content content fname
    if detected.isEmpty then
      match LANGUAGE_MAP.lookup (lowerStr (pyExt fname)) with
      | some l => [l]
      | none => []
    else detected

/-- Modelled from the spec: auto_detect_languages of the missing module
auto_language_detector.py.  Per spec section 4.4 the walk skips dotfile
names and the binary deny-list, reads files leniently (an unreadable file
is skipped), tallies one count per language tag of each file, and the one
fatal condition is an unreadable or missing root, failed with a clear
error. -/
def auto_detect_languages (fs : FS) : Except String (List (String × Nat)) :=
  if fs.rootOk then
    Except.ok (fs.files.foldl (fun acc f =>
      let name := baseName f.relPath
      if startsDot name then acc
      else if binaryExtensions.contains (pyExt (lowerStr name)) then acc
      else
        match f.data with
        | none => acc
        | some content => (fileLanguages content name).foldl addCount acc) [])
  else Except.error "Scan failed: root directory is unreadable or does not exist"

/-! ### Connection extractors (multi_parser.py lines 136-161) -/

/-- Modelled from the source use of ast.parse (multi_parser.py lines
136-150): the Python syntax tree is approximated by scanning stripped
lines for top-level import and from statements; a line that is neither
contributes nothing, which also covers the except: pass of the source on
parse failure.  Every edge is (filename, module-name) exactly as in the
source. -/
def pythonModules (content : String) : List String :=
  (splitChar '\n' content.data).filterMap (fun line =>
    let l := pyStrip line
    match litCS "import ".data l with
    | some (_, r) =>
      let run := (takeCls isWordDot r).1
      if run.isEmpty then none else some (String.mk run)
    | none =>
      match litCS "from ".data l with
      | some (_, r) =>
        let run := (takeCls isWordDot r).1
        if run.isEmpty then none else some (String.mk run)
      | none => none)

def parse_python_imports (content filename : String) : List (String × String) :=
  (pythonModules content).map (fun m => (filename, m))

/-- Pattern depends_on\s*=\s*\[(.*?)\] with DOTALL: the non-greedy group
captures up to the first closing bracket. -/
def mDepends : Matcher := fun _ cs => do
  let (m1, r1) ← litCS "depends_on".data cs
  let (sp1, r2) := takeCls isPySpace r1
  match r2 with
  | '=' :: r3 =>
    let (sp2, r4) := takeCls isPySpace r3
    match r4 with
    | '[' :: r5 =>
      let (inner, r6) := takeCls (fun c => c ≠ ']') r5
      match r6 with
      | ']' :: r7 =>
        some (m1 ++ sp1 ++ '=' :: sp2 ++ '[' :: inner ++ [']'], some inner, r7)
      | _ => none
    | _ => none
  | _ => none

/-- re.findall of the depends_on pattern: the list of captured groups. -/
def dependsGroups (content : String) : List (List Char) :=
  (finditer mDepends content.data).map (fun g => g.2.getD [])

/-- A maximal-run matcher for a plain character class. -/
def mClsRun (p : Char → Bool) : Matcher := fun _ cs =>
  let r := takeCls p cs
  if r.1.isEmpty then none else some (r.1, none, r.2)

/-- re.findall of [\w.]+ over a captured group. -/
def wordDotRuns (cs : List Char) : List String :=
  (finditer (mClsRun isWordDot) cs).map (fun g => String.mk g.1)

/-- parse_terraform_deps (lines 152-161): one (dependency, filename) edge
per [\w.]+ token of each captured depends_on group. -/
def parse_terraform_deps (content filename : String) : List (String × String) :=
  (dependsGroups content).foldl (fun acc g =>
    acc ++ (wordDotRuns g).map (fun d => (d, filename))) []

/-! ### The tree walker (multi_parser.py lines 82-134) -/

structure FileRecord where
  file : String
  languages : List String
  services : List String
deriving DecidableEq, Repr

structure ScanResult where
  languages : List (String × Nat)
  services : ServiceTally
  connections : List (String × String)
  files : List FileRecord
deriving DecidableEq, Repr

/-- The extension skip list of the multi_parser walk (lines 93-94);
narrower than binaryExtensions. -/
def multiParserSkip : List String :=
  [".exe", ".bin", ".so", ".dll", ".zip", ".tar", ".gz"]

/-- Per-file FileRecord contribution of the walk: a record is appended only
when the file produced at least one language or service signal. -/
def fileDetails (f : SrcFile) : List FileRecord :=
  let name := baseName f.relPath
  let ext := lowerStr (pyExt name)
  if multiParserSkip.contains ext then []
  else
    match f.data with
    | none => []
    | some content =>
      let langs := fileLanguages content name
      let svcs := auto_detect_services content
      if langs ≠ [] ∨ svcs ≠ [] then [⟨f.relPath, langs, svcs.map (fun e => e.1)⟩]
      else []

/-- Per-file connection contribution of the walk: the import edges for a
.py file, the depends_on edges for a .tf file, each built from the bare
file name (not the relative path). -/
def fileConns (f : SrcFile) : List (String × String) :=
  let name := baseName f.relPath
  let ext := lowerStr (pyExt name)
  if multiParserSkip.contains ext then []
  else
    match f.data with
    | none => []
    | some content =>
      if ext = ".py" then parse_python_imports content name
      else if ext = ".tf" then parse_terraform_deps content name
      else []

/-- detect_language_and_services_with_references: the walk accumulates
connections and file records in walk order, then the project-wide language
tally and the reference-carrying service tally are computed; the only
error that can surface is the fatal root error of the language walk. -/
def detect_language_and_services_with_references (fs : FS) : Except String ScanResult :=
  let connections := (osWalk fs).flatMap fileConns
  let file_details := (osWalk fs).flatMap fileDetails
  match auto_detect_languages fs with
  | Except.error e => Except.error e
  | Except.ok languages =>
    Except.ok ⟨languages, detect_all_services_with_references fs, connections, file_details⟩

/-- Projections of a scan outcome, empty when the scan failed; used to
state concrete scan facts. -/
def scanLangs (fs : FS) : List (String × Nat) :=
  match detect_language_and_services_with_references fs with
  | Except.ok r => r.languages
  | Except.error _ => []

def scanServices (fs : FS) : ServiceTally :=
  match detect_language_and_services_with_references fs with
  | Except.ok r => r.services
  | Except.error _ => []

def scanConns (fs : FS) : List (String × String) :=
  match detect_language_and_services_with_references fs with
  | Except.ok r => r.connections
  | Except.error _ => []

def scanFiles (fs : FS) : List FileRecord :=
  match detect_language_and_services_with_references fs with
  | Except.ok r => r.files
  | Except.error _ => []

/-! ### Concrete scan fixtures used by the verification theorems -/

/-- Scenario A with the minimal content: exactly the two substrings the
scenario prescribes, one per line. -/
def fsAmin : FS :=
  ⟨true, [⟨"app.py", some "import boto3\ns3_client.upload_file(\"a\", \"b\", \"c\")"⟩]⟩

/-- Scenario A content extended with a typical boto3 client line. -/
def fsA2 : FS :=
  ⟨true,
   [⟨"app.py",
     some "import boto3\ns3 = boto3.client(\"s3\")\ns3_client.upload_file(\"a\", \"b\", \"c\")"⟩]⟩

/-- The AWS S3 reference produced twice by the client line of fsA2. -/
def refS3 : ServiceRef := ⟨"app.py", 2, "s3 = boto3.client(\"s3\")", "s3"⟩

/-- Scenario C: a directory holding a single .png file, whose lossily
decoded bytes happen to contain a service keyword. -/
def fsPng : FS := ⟨true, [⟨"a.png", some "docker"⟩]⟩

/-- Scenario B: a directory holding a single Terraform file. -/
def fsB : FS :=
  ⟨true, [⟨"main.tf", some "resource \"aws_instance\" \"x\" { depends_on = [aws_vpc.main] }"⟩]⟩

/-- Two files with the same base name in different directories. -/
def fsC10 : FS := ⟨true, [⟨"a/x.py", some "import os"⟩, ⟨"b/x.py", some "import os"⟩]⟩

/-- A root with one readable and one unreadable file. -/
def fsC4 : FS := ⟨true, [⟨"r.txt", some "hello"⟩, ⟨"bad.txt", none⟩]⟩

/-- A root with a single ordinary Python file. -/
def fsC8 : FS := ⟨true, [⟨"w.py", some "x = 1"⟩]⟩

/-- The ScanResult of fsC8. -/
def rC8 : ScanResult := ⟨[("Python", 1)], [], [], [⟨"w.py", ["Python"], []⟩]⟩

/-- The shebang-precedence content: a Python shebang over a Java-looking
body. -/
def c7content : String := "#!/usr/bin/env python3\npublic class Hello"

/-! ### The claim text of C3, as literally stated, for the counterexample -/

/-- The reduction rule exactly as claim C3 states it: for a name of more
than 3 tokens, keep every token longer than 2 characters whose lower-case
form is not a stop word (over all tokens), and join the first two
survivors with a space; a name longer than 30 characters is truncated.
Stated for comparison with the source clean_service_name. -/
def cleanServiceNameClaim (service_name : String) : String :=
  let s := pyStrip service_name.data
  let parts := splitWS (s.map (fun c => if c = '_' || c = '-' then ' ' else c))
  if parts.length > 3 then
    let meaningful := parts.filter (fun part =>
      part.length > 2 && !(stopWords.contains (String.mk (part.map Char.toLower))))
    joinSpaces (meaningful.take 2)
  else truncate30 s

/-- clean_service_name as amended: only the first three tokens are surveyed
for survivors, a name none of whose first three tokens survives falls
through unreduced, and the 30-character truncation applies only on the
fall-through paths. -/
def cleanServiceNameAmended (service_name : String) : String :=
  let s := pyStrip service_name.data
  let parts := splitWS (s.map (fun c => if c = '_' || c = '-' then ' ' else c))
  let survivors := (parts.take 3).filter (fun part =>
    part.length > 2 && !(stopWords.contains (String.mk (part.map Char.toLower))))
  if parts.length > 3 ∧ survivors ≠ [] then joinSpaces (survivors.take 2)
  else truncate30 s

/-! ### Helper lemmas: the count / references bookkeeping -/

theorem addRef_inv (name : String) (r : ServiceRef) :
    ∀ (t : ServiceTally), (∀ e ∈ t, e.2.count = e.2.references.length) →
      ∀ e ∈ addRef t name r, e.2.count = e.2.references.length := by
  intro t
  induction t with
  | nil =>
    intro _ e he
    simp only [addRef, List.mem_singleton] at he
    subst he
    simp
  | cons hd tl ih =>
    obtain ⟨n, d⟩ := hd
    intro h e he
    simp only [addRef] at he
    split at he
    · rcases List.mem_cons.mp he with he | he
      · subst he
        have hd2 : d.count = d.references.length := h (n, d) (List.mem_cons_self _ _)
        show d.count + 1 = (d.references ++ [r]).length
        simp [hd2]
      · exact h e (List.mem_cons_of_mem _ he)
    · rcases List.mem_cons.mp he with he | he
      · subst he
        exact h (n, d) (List.mem_cons_self _ _)
      · exact ih (fun x hx => h x (List.mem_cons_of_mem _ hx)) e he

theorem foldAddRef_inv (evs : List (String × ServiceRef)) :
    ∀ (t : ServiceTally), (∀ e ∈ t, e.2.count = e.2.references.length) →
      ∀ e ∈ foldAddRef t evs, e.2.count = e.2.references.length := by
  induction evs with
  | nil => intro t h; simpa [foldAddRef] using h
  | cons ev evs ih =>
    intro t h
    have : foldAddRef t (ev :: evs) = foldAddRef (addRef t ev.1 ev.2) evs := rfl
    rw [this]
    exact ih _ (addRef_inv ev.1 ev.2 t h)

/-- Both invariants for every entry of a per-file detector result: the
count equals the reference-list length and the reference list is
non-empty. -/
theorem adswr_inv (content path : String) :
    ∀ e ∈ auto_detect_services_with_references content path,
      e.2.count = e.2.references.length ∧ e.2.references ≠ [] := by
  intro e he
  unfold auto_detect_services_with_references at he
  have hmem := List.mem_filter.mp he
  refine ⟨?_, ?_⟩
  · exact foldAddRef_inv _ _
      (foldAddRef_inv _ _ (foldAddRef_inv _ _ (by simp)) ) e hmem.1
  · have hne := hmem.2
    cases hrefs : e.2.references with
    | nil => rw [hrefs] at hne; simp at hne
    | cons a l => simp

theorem addData_inv (name : String) (d : SvcData)
    (hd : d.count = d.references.length ∧ d.references ≠ []) :
    ∀ (t : ServiceTally),
      (∀ e ∈ t, e.2.count = e.2.references.length ∧ e.2.references ≠ []) →
      ∀ e ∈ addData t name d,
        e.2.count = e.2.references.length ∧ e.2.references ≠ [] := by
  intro t
  induction t with
  | nil =>
    intro _ e he
    simp only [addData, List.mem_singleton] at he
    subst he
    exact hd
  | cons hd2 tl ih =>
    obtain ⟨n, en⟩ := hd2
    intro h e he
    simp only [addData] at he
    split at he
    · rcases List.mem_cons.mp he with he | he
      · subst he
        have h1 : en.count = en.references.length :=
          (h (n, en) (List.mem_cons_self _ _)).1
        refine ⟨?_, ?_⟩
        · show en.count + d.count = (en.references ++ d.references).length
          simp [h1, hd.1]
        · show en.references ++ d.references ≠ []
          simp [hd.2]
      · exact h e (List.mem_cons_of_mem _ he)
    · rcases List.mem_cons.mp he with he | he
      · subst he
        exact h (n, en) (List.mem_cons_self _ _)
      · exact ih (fun x hx => h x (List.mem_cons_of_mem _ hx)) e he

theorem mergeSvc_inv (entries : ServiceTally)
    (hentries : ∀ e ∈ entries, e.2.count = e.2.references.length ∧ e.2.references ≠ []) :
    ∀ (acc : ServiceTally),
      (∀ e ∈ acc, e.2.count = e.2.references.length ∧ e.2.references ≠ []) →
      ∀ e ∈ mergeSvc acc entries,
        e.2.count = e.2.references.length ∧ e.2.references ≠ [] := by
  induction entries with
  | nil => intro acc h; simpa [mergeSvc] using h
  | cons ent rest ih =>
    intro acc h
    have hstep : mergeSvc acc (ent :: rest) = mergeSvc (addData acc ent.1 ent.2) rest := rfl
    rw [hstep]
    exact ih (fun x hx => hentries x (List.mem_cons_of_mem _ hx)) _
      (addData_inv ent.1 ent.2 (hentries ent (List.mem_cons_self _ _)) acc h)

theorem perFileServices_inv (f : SrcFile) :
    ∀ e ∈ perFileServices f,
      e.2.count = e.2.references.length ∧ e.2.references ≠ [] := by
  intro e he
  by_cases h1 : startsDot (baseName f.relPath) = true
  · simp [perFileServices, h1] at he
  · by_cases h2 : binaryExtensions.contains (pyExt (lowerStr (baseName f.relPath))) = true
    · have h2m : pyExt (lowerStr (baseName f.relPath)) ∈ binaryExtensions := by
        simpa using h2
      simp [perFileServices, h1, h2m] at he
    · cases hdata : f.data with
      | none => simp [perFileServices, h1, h2, hdata] at he
      | some content =>
        simp only [perFileServices, h1, h2, hdata, Bool.false_eq_true,
          if_false, if_neg] at he
        exact adswr_inv _ _ e he

theorem detect_all_inv (l : List SrcFile) :
    ∀ (acc : ServiceTally),
      (∀ e ∈ acc, e.2.count = e.2.references.length ∧ e.2.references ≠ []) →
      ∀ e ∈ l.foldl (fun acc f => mergeSvc acc (perFileServices f)) acc,
        e.2.count = e.2.references.length ∧ e.2.references ≠ [] := by
  induction l with
  | nil => intro acc h; simpa using h
  | cons f rest ih =>
    intro acc h
    have hstep : (f :: rest).foldl (fun acc f => mergeSvc acc (perFileServices f)) acc =
        rest.foldl (fun acc f => mergeSvc acc (perFileServices f))
          (mergeSvc acc (perFileServices f)) := rfl
    rw [hstep]
    exact ih _ (mergeSvc_inv (perFileServices f) (perFileServices_inv f) acc h)

/-- Mapping an entry-wise equal function over a tally whose counts equal
the reference-list lengths. -/
theorem tally_map_counts :
    ∀ (l : ServiceTally), (∀ e ∈ l, e.2.count = e.2.references.length) →
      l.map (fun e => (e.1, e.2.count)) = l.map (fun e => (e.1, e.2.references.length)) := by
  intro l
  induction l with
  | nil => intro _; rfl
  | cons e rest ih =>
    intro h
    have he := h e (List.mem_cons_self _ _)
    simp only [List.map_cons, he]
    rw [ih (fun x hx => h x (List.mem_cons_of_mem _ hx))]

/-! ### Claim theorems -/

/-- C1: in every services mapping returned to a caller — the per-file
result of auto_detect_services_with_references and the project-wide result
of detect_all_services_with_references — every ServiceRecord satisfies
count = len(references), and no record with an empty reference list
appears (hence every count is at least 1). -/
theorem C1_count_matches_references :
    (∀ (content path name : String) (d : SvcData),
      (name, d) ∈ auto_detect_services_with_references content path →
        d.count = d.references.length ∧ d.references ≠ []) ∧
    (∀ (fs : FS) (name : String) (d : SvcData),
      (name, d) ∈ detect_all_services_with_references fs →
        d.count = d.references.length ∧ d.references ≠ []) := by
  constructor
  · intro content path name d hmem
    exact adswr_inv content path (name, d) hmem
  · intro fs name d hmem
    exact detect_all_inv (osWalk fs) [] (by simp) (name, d) hmem

/-- Witness for C1 at a concrete scan. -/
theorem C1_count_matches_references_witness :
    (("Docker", (⟨1, [⟨"f", 1, "docker", "docker"⟩]⟩ : SvcData)) ∈
        auto_detect_services_with_references "docker" "f") ∧
    ((⟨1, [⟨"f", 1, "docker", "docker"⟩]⟩ : SvcData).count =
        (⟨1, [⟨"f", 1, "docker", "docker"⟩]⟩ : SvcData).references.length ∧
      (⟨1, [⟨"f", 1, "docker", "docker"⟩]⟩ : SvcData).references ≠ []) :=
  ⟨by decide,
   C1_count_matches_references.1 "docker" "f" "Docker" _ (by decide)⟩

/-- C2 counterexample: the claimed agreement between the legacy tally and
the count view of the reference-carrying detector fails: on the content
"docker docker" the legacy function counts the docker keyword once
(re.search), while the reference-carrying detector records two matches. -/
theorem C2_counterexample :
    toCountView (auto_detect_services_with_references "docker docker" "f.txt") =
        [("Docker", 2)] ∧
    auto_detect_services "docker docker" = [("Docker", 1)] ∧
    toCountView (auto_detect_services_with_references "docker docker" "f.txt") ≠
        auto_detect_services "docker docker" := by
  refine ⟨by decide, by decide, by decide⟩

/-- C2 as amended: the simplified {name: count} view is derivable from the
references-carrying services output — dropping each reference list while
keeping the count (exactly what upload_project computes) loses no tally
information, because every count equals the length of its reference
list — but the view does not in general agree with the legacy
auto_detect_services. -/
theorem C2_view_derivable (content path : String) :
    toCountView (auto_detect_services_with_references content path) =
      (auto_detect_services_with_references content path).map
        (fun e => (e.1, e.2.references.length)) := by
  unfold toCountView
  exact tally_map_counts _ (fun e he => (adswr_inv content path e he).1)

/-- C3 counterexample: clean_service_name surveys only the first three
tokens for survivors; on a four-token name whose first three tokens are
all stop words the source returns the name unchanged, while the rule as
claimed (filtering over all tokens) would return the surviving fourth
token. -/
theorem C3_counterexample :
    clean_service_name "aws amazon service lambda" = "aws amazon service lambda" ∧
    cleanServiceNameClaim "aws amazon service lambda" = "lambda" ∧
    clean_service_name "aws amazon service lambda" ≠
      cleanServiceNameClaim "aws amazon service lambda" := by
  refine ⟨by decide, by decide, by decide⟩

/-- The two nested guards of the source branch reorganized as the amended
single guard. -/
theorem reduce_branch_eq {α : Type} [DecidableEq α] (A : Prop) [Decidable A]
    (sv : List α) (x y : String) :
    (if A then (if !sv.isEmpty then x else y) else y) = (if A ∧ sv ≠ [] then x else y) := by
  by_cases hA : A
  · cases sv with
    | nil => simp [hA]
    | cons a l => simp [hA]
  · simp [hA]

/-- C3 as amended: for names of more than three tokens only the first
three tokens are surveyed for survivors (tokens longer than 2 characters
whose lower case is not aws, amazon or service), the first two survivors
are joined with a space, a name with no surviving token falls through
unreduced, and the 30-character truncation applies only on fall-through;
on the claim example the result is "Web Services", at most 3 tokens drawn
from the non-stop-words of the name. -/
theorem C3_clean_service_name_amended :
    (∀ name : String, clean_service_name name = cleanServiceNameAmended name) ∧
    clean_service_name "Amazon Web Services Simple Storage" = "Web Services" := by
  constructor
  · intro name
    simp only [clean_service_name, cleanServiceNameAmended]
    exact reduce_branch_eq _ _ _ _
  · decide

/-! ### Generic walk lemmas for C4 and C6 -/

/-- A fold whose step ignores unreadable files is unchanged by dropping
them. -/
theorem foldl_skip_none {β : Type} (g : β → SrcFile → β)
    (hg : ∀ b f, f.data = none → g b f = b) :
    ∀ (l : List SrcFile) (b : β),
      (l.filter (fun f => f.data.isSome)).foldl g b = l.foldl g b := by
  intro l
  induction l with
  | nil => intro b; rfl
  | cons f rest ih =>
    intro b
    cases hdata : f.data with
    | none => simp [List.filter_cons, hdata, ih, hg b f hdata]
    | some c => simp [List.filter_cons, hdata, ih]

/-- A per-file list contribution that is empty on unreadable files is
unchanged by dropping them. -/
theorem flatMap_skip_none {γ : Type} (g : SrcFile → List γ)
    (hg : ∀ f, f.data = none → g f = []) :
    ∀ (l : List SrcFile),
      (l.filter (fun f => f.data.isSome)).flatMap g = l.flatMap g := by
  intro l
  induction l with
  | nil => rfl
  | cons f rest ih =>
    cases hdata : f.data with
    | none => simp [List.filter_cons, hdata, ih, hg f hdata]
    | some c => simp [List.filter_cons, hdata, ih]

/-- A fold whose step fixes the accumulator on every listed file computes
the initial accumulator. -/
theorem foldl_id_of_skip {β : Type} (g : β → SrcFile → β) :
    ∀ (l : List SrcFile), (∀ b f, f ∈ l → g b f = b) → ∀ b, l.foldl g b = b := by
  intro l
  induction l with
  | nil => intro _ b; rfl
  | cons f rest ih =>
    intro h b
    have hstep : (f :: rest).foldl g b = rest.foldl g (g b f) := rfl
    rw [hstep, h b f (List.mem_cons_self _ _)]
    exact ih (fun b2 f2 hf2 => h b2 f2 (List.mem_cons_of_mem _ hf2)) b

/-- A per-file list contribution that is empty on every listed file yields
the empty list. -/
theorem flatMap_nil_of_skip {γ : Type} (g : SrcFile → List γ) :
    ∀ (l : List SrcFile), (∀ f ∈ l, g f = []) → l.flatMap g = [] := by
  intro l
  induction l with
  | nil => intro _; rfl
  | cons f rest ih =>
    intro h
    simp [List.flatMap_cons, h f (List.mem_cons_self _ _),
      ih (fun f2 hf2 => h f2 (List.mem_cons_of_mem _ hf2))]

theorem perFileServices_none (f : SrcFile) (hf : f.data = none) :
    perFileServices f = [] := by
  by_cases h1 : startsDot (baseName f.relPath) = true
  · simp [perFileServices, h1]
  · by_cases h2 : binaryExtensions.contains (pyExt (lowerStr (baseName f.relPath))) = true
    · have h2m : pyExt (lowerStr (baseName f.relPath)) ∈ binaryExtensions := by
        simpa using h2
      simp [perFileServices, h1, h2m]
    · simp [perFileServices, h1, h2, hf]

theorem fileDetails_none (f : SrcFile) (hf : f.data = none) :
    fileDetails f = [] := by
  by_cases h1 : multiParserSkip.contains (lowerStr (pyExt (baseName f.relPath))) = true
  · have h1m : lowerStr (pyExt (baseName f.relPath)) ∈ multiParserSkip := by simpa using h1
    simp [fileDetails, h1m]
  · simp [fileDetails, h1, hf]

theorem fileConns_none (f : SrcFile) (hf : f.data = none) :
    fileConns f = [] := by
  by_cases h1 : multiParserSkip.contains (lowerStr (pyExt (baseName f.relPath))) = true
  · have h1m : lowerStr (pyExt (baseName f.relPath)) ∈ multiParserSkip := by simpa using h1
    simp [fileConns, h1m]
  · simp [fileConns, h1, hf]

theorem langStep_none (acc : List (String × Nat)) (f : SrcFile) (hf : f.data = none) :
    (let name := baseName f.relPath
     if startsDot name then acc
     else if binaryExtensions.contains (pyExt (lowerStr name)) then acc
     else
       match f.data with
       | none => acc
       | some content => (fileLanguages content name).foldl addCount acc) = acc := by
  by_cases h1 : startsDot (baseName f.relPath) = true
  · simp [h1]
  · by_cases h2 : binaryExtensions.contains (pyExt (lowerStr (baseName f.relPath))) = true
    · simp [h1, h2, hf]
    · simp [h1, h2, hf]

/-! ### C4 -/

/-- C4: the scan fails with an error exactly when the root directory is
unreadable or non-existent; it returns a ScanResult whenever the root is
readable; and unreadable files contribute nothing — the scan of a tree
equals the scan of the same tree with the unreadable files removed. -/
theorem C4_failure_semantics (fs : FS) :
    ((∃ e, detect_language_and_services_with_references fs = Except.error e) ↔
        fs.rootOk = false) ∧
    (fs.rootOk = true →
        ∃ r, detect_language_and_services_with_references fs = Except.ok r) ∧
    detect_language_and_services_with_references fs =
      detect_language_and_services_with_references
        ⟨fs.rootOk, fs.files.filter (fun f => f.data.isSome)⟩ := by
  obtain ⟨ok, files⟩ := fs
  have hlang : ∀ (l : List SrcFile),
      (l.filter (fun f => f.data.isSome)).foldl (fun acc f =>
        let name := baseName f.relPath
        if startsDot name then acc
        else if binaryExtensions.contains (pyExt (lowerStr name)) then acc
        else
          match f.data with
          | none => acc
          | some content => (fileLanguages content name).foldl addCount acc)
        ([] : List (String × Nat)) =
      l.foldl (fun acc f =>
        let name := baseName f.relPath
        if startsDot name then acc
        else if binaryExtensions.contains (pyExt (lowerStr name)) then acc
        else
          match f.data with
          | none => acc
          | some content => (fileLanguages content name).foldl addCount acc) [] :=
    fun l => foldl_skip_none _ (fun b f hf => langStep_none b f hf) l []
  have hsvc : ∀ (l : List SrcFile),
      (l.filter (fun f => f.data.isSome)).foldl
          (fun acc f => mergeSvc acc (perFileServices f)) ([] : ServiceTally) =
        l.foldl (fun acc f => mergeSvc acc (perFileServices f)) [] :=
    fun l => foldl_skip_none _
      (fun b f hf => by rw [perFileServices_none f hf]; rfl) l []
  have hconn : ∀ (l : List SrcFile),
      (l.filter (fun f => f.data.isSome)).flatMap fileConns = l.flatMap fileConns :=
    flatMap_skip_none _ fileConns_none
  have hdet : ∀ (l : List SrcFile),
      (l.filter (fun f => f.data.isSome)).flatMap fileDetails = l.flatMap fileDetails :=
    flatMap_skip_none _ fileDetails_none
  cases ok
  · refine ⟨?_, ?_, ?_⟩
    · simp [detect_language_and_services_with_references, auto_detect_languages]
    · intro h; cases h
    · simp [detect_language_and_services_with_references, auto_detect_languages]
  · refine ⟨?_, ?_, ?_⟩
    · simp [detect_language_and_services_with_references, auto_detect_languages]
    · intro _
      exact ⟨_, rfl⟩
    · simp only [detect_language_and_services_with_references, auto_detect_languages,
        detect_all_services_with_references, osWalk, if_true]
      rw [hlang files, hsvc files, hconn files, hdet files]

/-- Witness for C4 at a concrete root holding one readable and one
unreadable file. -/
theorem C4_failure_semantics_witness :
    fsC4.rootOk = true ∧
    (∃ r, detect_language_and_services_with_references fsC4 = Except.ok r) :=
  ⟨rfl, (C4_failure_semantics fsC4).2.1 rfl⟩

/-! ### C5 -/

/-- C5 counterexample: for the minimal Scenario A content — exactly the
two prescribed fragments import boto3 and s3_client.upload_file(...) — no
service pattern fires (boto3 without a trailing dot matches nothing, and
s3_client has no word boundary after s3), so the services mapping is
empty and in particular holds no AWS S3 and no AWS SDK key; the languages
tally is still {Python: 1}. -/
theorem C5_counterexample :
    containsSub "import boto3" "import boto3\ns3_client.upload_file(\"a\", \"b\", \"c\")" = true ∧
    containsSub "s3_client.upload_file(" "import boto3\ns3_client.upload_file(\"a\", \"b\", \"c\")" = true ∧
    scanServices fsAmin = [] ∧
    (scanServices fsAmin).lookup "AWS S3" = none ∧
    (scanServices fsAmin).lookup "AWS SDK" = none ∧
    scanLangs fsAmin = [("Python", 1)] := by
  refine ⟨by decide, by decide, by decide, by decide, by decide, by decide⟩

/-- C5 as amended: the minimal scenario content yields no service record,
but as soon as the content also carries a matching occurrence — here the
typical client line s3 = boto3.client("s3") — the scan returns languages =
{Python: 1} and a services entry for AWS S3 with count at least 1 carrying
a reference whose file is app.py. -/
theorem C5_scenario_a_amended :
    scanLangs fsA2 = [("Python", 1)] ∧
    ("AWS S3", (⟨2, [refS3, refS3]⟩ : SvcData)) ∈ scanServices fsA2 ∧
    1 ≤ (2 : Nat) ∧
    refS3 ∈ [refS3, refS3] ∧
    refS3.file = "app.py" := by
  refine ⟨by decide, by decide, by decide, by decide, by decide⟩

/-! ### C6 -/

/-- C6 counterexample: the per-file walk of multi_parser.py skips only
exe, bin, so, dll, zip, tar and gz and never skips dotfiles or images, so
a directory holding a single .png file whose decoded bytes contain a
service keyword yields a non-empty files list — the ScanResult is not
fully empty as claimed. -/
theorem C6_counterexample :
    scanFiles fsPng ≠ [] ∧
    scanFiles fsPng = [⟨"a.png", [], ["Docker"]⟩] := by
  refine ⟨by decide, by decide⟩

theorem perFileServices_png (f : SrcFile)
    (hpng : pyExt (lowerStr (baseName f.relPath)) = ".png") :
    perFileServices f = [] := by
  by_cases h1 : startsDot (baseName f.relPath) = true
  · simp [perFileServices, h1]
  · have h2m : pyExt (lowerStr (baseName f.relPath)) ∈ binaryExtensions := by
      rw [hpng]; decide
    simp [perFileServices, h1, h2m]

theorem langStep_png (acc : List (String × Nat)) (f : SrcFile)
    (hpng : pyExt (lowerStr (baseName f.relPath)) = ".png") :
    (let name := baseName f.relPath
     if startsDot name then acc
     else if binaryExtensions.contains (pyExt (lowerStr name)) then acc
     else
       match f.data with
       | none => acc
       | some content => (fileLanguages content name).foldl addCount acc) = acc := by
  by_cases h1 : startsDot (baseName f.relPath) = true
  · simp [h1]
  · have h2m : pyExt (lowerStr (baseName f.relPath)) ∈ binaryExtensions := by
      rw [hpng]; decide
    simp [h1, h2m]

theorem fileConns_png (f : SrcFile)
    (hpng : lowerStr (pyExt (baseName f.relPath)) = ".png") :
    fileConns f = [] := by
  have h1 : ¬multiParserSkip.contains (lowerStr (pyExt (baseName f.relPath))) = true := by
    rw [hpng]; decide
  cases hdata : f.data with
  | none => simp [fileConns, h1, hdata]
  | some content => simp [fileConns, h1, hdata, hpng]

/-- C6 as amended: the project-wide service aggregation and the language
tally do skip dotfiles and the full binary deny-list, and no connection
extractor runs on a .png, so a directory of .png files yields empty
languages, services and connections; but the per-file record stage skips
only the seven-extension list, so the files list need not be empty. -/
theorem C6_png_scan_amended (fs : FS) (hroot : fs.rootOk = true)
    (hpng : ∀ f ∈ fs.files,
      pyExt (lowerStr (baseName f.relPath)) = ".png" ∧
      lowerStr (pyExt (baseName f.relPath)) = ".png") :
    scanLangs fs = [] ∧ scanServices fs = [] ∧ scanConns fs = [] := by
  obtain ⟨ok, files⟩ := fs
  cases ok
  · cases hroot
  · have hlang : files.foldl (fun acc f =>
        let name := baseName f.relPath
        if startsDot name then acc
        else if binaryExtensions.contains (pyExt (lowerStr name)) then acc
        else
          match f.data with
          | none => acc
          | some content => (fileLanguages content name).foldl addCount acc)
          ([] : List (String × Nat)) = [] :=
      foldl_id_of_skip _ files
        (fun b f hf => langStep_png b f (hpng f hf).1) []
    have hsvc : files.foldl (fun acc f => mergeSvc acc (perFileServices f))
        ([] : ServiceTally) = [] :=
      foldl_id_of_skip _ files
        (fun b f hf => by rw [perFileServices_png f (hpng f hf).1]; rfl) []
    have hconn : files.flatMap fileConns = [] :=
      flatMap_nil_of_skip _ files (fun f hf => fileConns_png f (hpng f hf).2)
    have hscan : detect_language_and_services_with_references ⟨true, files⟩ =
        Except.ok ⟨[], [], [], files.flatMap fileDetails⟩ := by
      have hbase : detect_language_and_services_with_references ⟨true, files⟩ =
          Except.ok
            ⟨files.foldl (fun acc f =>
                let name := baseName f.relPath
                if startsDot name then acc
                else if binaryExtensions.contains (pyExt (lowerStr name)) then acc
                else
                  match f.data with
                  | none => acc
                  | some content => (fileLanguages content name).foldl addCount acc) [],
              files.foldl (fun acc f => mergeSvc acc (perFileServices f)) [],
              files.flatMap fileConns, files.flatMap fileDetails⟩ := rfl
      rw [hbase, hlang, hsvc, hconn]
    exact ⟨by simp [scanLangs, hscan], by simp [scanServices, hscan],
      by simp [scanConns, hscan]⟩

/-- Witness for the amended C6 at the concrete .png fixture. -/
theorem C6_png_scan_amended_witness :
    fsPng.rootOk = true ∧
    (∀ f ∈ fsPng.files,
      pyExt (lowerStr (baseName f.relPath)) = ".png" ∧
      lowerStr (pyExt (baseName f.relPath)) = ".png") ∧
    (scanLangs fsPng = [] ∧ scanServices fsPng = [] ∧ scanConns fsPng = []) :=
  ⟨rfl, by decide, C6_png_scan_amended fsPng rfl (by decide)⟩

/-! ### C7 -/

/-- C7: a file whose shebang names a recognized interpreter is tagged with
exactly that one language and no content-pattern or extension-fallback
rule is consulted; on the concrete content a Python shebang over a
Java-looking body yields [Python] although the content battery alone
would yield [Java]. -/
theorem C7_shebang_short_circuit :
    (∀ (content fname lang : String),
      detect_language_from_shebang content = some lang →
        fileLanguages content fname = [lang]) ∧
    fileLanguages c7content "Weird.java" = ["Python"] ∧
    detect_language_from_content c7content "Weird.java" = ["Java"] := by
  refine ⟨?_, by decide, by decide⟩
  intro content fname lang h
  unfold fileLanguages
  rw [h]

/-- Witness for C7 at a concrete bash script. -/
theorem C7_shebang_short_circuit_witness :
    detect_language_from_shebang "#!/bin/bash\necho hi" = some "Bash" ∧
    fileLanguages "#!/bin/bash\necho hi" "run.txt" = ["Bash"] :=
  ⟨by decide, C7_shebang_short_circuit.1 "#!/bin/bash\necho hi" "run.txt" "Bash" (by decide)⟩

/-! ### C8 -/

theorem fileDetails_signal (f : SrcFile) :
    ∀ rec ∈ fileDetails f, rec.languages ≠ [] ∨ rec.services ≠ [] := by
  intro rec hrec
  by_cases h1 : multiParserSkip.contains (lowerStr (pyExt (baseName f.relPath))) = true
  · have h1m : lowerStr (pyExt (baseName f.relPath)) ∈ multiParserSkip := by simpa using h1
    simp [fileDetails, h1m] at hrec
  · cases hdata : f.data with
    | none => simp [fileDetails, h1, hdata] at hrec
    | some content =>
      simp only [fileDetails, h1, hdata] at hrec
      rw [if_neg (by decide : ¬(false = true))] at hrec
      split at hrec
      · rename_i hsig
        rcases List.mem_singleton.mp hrec with he
        subst he
        rcases hsig with hl | hs
        · exact Or.inl hl
        · refine Or.inr ?_
          intro hmap
          exact hs (List.map_eq_nil_iff.mp hmap)
      · simp at hrec

/-- C8: every FileRecord in the files list of a successful scan has a
non-empty languages list or a non-empty services list; a file with
neither signal contributes no record. -/
theorem C8_file_record_signal (fs : FS) (r : ScanResult)
    (hr : detect_language_and_services_with_references fs = Except.ok r) :
    ∀ rec ∈ r.files, rec.languages ≠ [] ∨ rec.services ≠ [] := by
  intro rec hrec
  have hfiles : r.files = (osWalk fs).flatMap fileDetails := by
    unfold detect_language_and_services_with_references at hr
    cases hl : auto_detect_languages fs with
    | error e => rw [hl] at hr; cases hr
    | ok langs =>
      rw [hl] at hr
      cases hr
      rfl
  rw [hfiles] at hrec
  rcases List.mem_flatMap.mp hrec with ⟨f, _, hmem⟩
  exact fileDetails_signal f rec hmem

/-- Witness for C8 at a concrete scan. -/
theorem C8_file_record_signal_witness :
    (⟨"w.py", ["Python"], []⟩ : FileRecord).languages ≠ [] ∨
    (⟨"w.py", ["Python"], []⟩ : FileRecord).services ≠ [] :=
  C8_file_record_signal fsC8 rC8 (by rfl) ⟨"w.py", ["Python"], []⟩ (by decide)

/-! ### C9 -/

theorem tf_fold_mem (filename tok : String) :
    ∀ (gs : List (List Char)) (acc : List (String × String)),
      ((tok, filename) ∈ acc ∨ ∃ g ∈ gs, tok ∈ wordDotRuns g) →
      (tok, filename) ∈ gs.foldl (fun acc g =>
        acc ++ (wordDotRuns g).map (fun d => (d, filename))) acc := by
  intro gs
  induction gs with
  | nil =>
    intro acc h
    rcases h with h | ⟨g, hg, _⟩
    · exact h
    · cases hg
  | cons g rest ih =>
    intro acc h
    have hstep : (g :: rest).foldl (fun acc g =>
        acc ++ (wordDotRuns g).map (fun d => (d, filename))) acc =
        rest.foldl (fun acc g => acc ++ (wordDotRuns g).map (fun d => (d, filename)))
          (acc ++ (wordDotRuns g).map (fun d => (d, filename))) := rfl
    rw [hstep]
    rcases h with h | ⟨g2, hg2, htok⟩
    · exact ih _ (Or.inl (List.mem_append_left _ h))
    · rcases List.mem_cons.mp hg2 with he | he
      · subst he
        refine ih _ (Or.inl (List.mem_append_right _ ?_))
        exact List.mem_map.mpr ⟨tok, htok, rfl⟩
      · exact ih _ (Or.inr ⟨g2, he, htok⟩)

/-- C9: every token listed in a depends_on declaration of a Terraform file
yields one (dependency-token, this-file) connection, and the Scenario B
scan produces the ("aws_vpc.main", "main.tf") edge. -/
theorem C9_terraform_depends :
    (∀ (content filename tok : String) (g : List Char),
      g ∈ dependsGroups content → tok ∈ wordDotRuns g →
        (tok, filename) ∈ parse_terraform_deps content filename) ∧
    ("aws_vpc.main", "main.tf") ∈ scanConns fsB := by
  constructor
  · intro content filename tok g hg htok
    unfold parse_terraform_deps
    exact tf_fold_mem filename tok (dependsGroups content) [] (Or.inr ⟨g, hg, htok⟩)
  · decide

/-- Witness for C9 at a concrete depends_on declaration. -/
theorem C9_terraform_depends_witness :
    ("a.b, c".data ∈ dependsGroups "x depends_on = [a.b, c] y") ∧
    ("a.b" ∈ wordDotRuns "a.b, c".data) ∧
    ("a.b", "f.tf") ∈ parse_terraform_deps "x depends_on = [a.b, c] y" "f.tf" :=
  ⟨by decide, by decide,
   C9_terraform_depends.1 "x depends_on = [a.b, c] y" "f.tf" "a.b" "a.b, c".data
     (by decide) (by decide)⟩

/-! ### C10 -/

theorem tf_fold_snd (filename : String) :
    ∀ (gs : List (List Char)) (acc : List (String × String)),
      (∀ e ∈ acc, e.2 = filename) →
      ∀ e ∈ gs.foldl (fun acc g =>
          acc ++ (wordDotRuns g).map (fun d => (d, filename))) acc, e.2 = filename := by
  intro gs
  induction gs with
  | nil => intro acc h; exact h
  | cons g rest ih =>
    intro acc h
    have hstep : (g :: rest).foldl (fun acc g =>
        acc ++ (wordDotRuns g).map (fun d => (d, filename))) acc =
        rest.foldl (fun acc g => acc ++ (wordDotRuns g).map (fun d => (d, filename)))
          (acc ++ (wordDotRuns g).map (fun d => (d, filename))) := rfl
    rw [hstep]
    refine ih _ ?_
    intro e he
    rcases List.mem_append.mp he with he | he
    · exact h e he
    · rcases List.mem_map.mp he with ⟨d, _, hde⟩
      rw [← hde]

/-- C10: every connection names the scanned file by its bare base name:
python import edges are (basename, module), terraform edges are (token,
basename); a base name never equals a relative path holding a slash, so
for files in subdirectories the connection identifier differs from the
FileRecord key, and two same-named files in different directories produce
indistinguishable edges — as the concrete two-directory scan shows. -/
theorem C10_connections_basename :
    (∀ (content filename : String) (e : String × String),
      e ∈ parse_python_imports content filename → e.1 = filename) ∧
    (∀ (content filename : String) (e : String × String),
      e ∈ parse_terraform_deps content filename → e.2 = filename) ∧
    (∀ p : String, '/' ∈ p.data → baseName p ≠ p) ∧
    scanConns fsC10 = [("x.py", "os"), ("x.py", "os")] ∧
    (∀ rec ∈ scanFiles fsC10, rec.file ≠ "x.py") := by
  refine ⟨?_, ?_, ?_, by decide, by decide⟩
  · intro content filename e he
    rcases List.mem_map.mp he with ⟨m, _, hme⟩
    rw [← hme]
  · intro content filename e he
    exact tf_fold_snd filename (dependsGroups content) [] (by simp) e he
  · intro p hp hbase
    have hdata : (baseName p).data = p.data := congrArg String.data hbase
    have hdata2 : (p.data.reverse.takeWhile (fun c => c ≠ '/')).reverse = p.data := hdata
    have hmem : '/' ∈ p.data.reverse.takeWhile (fun c => c ≠ '/') := by
      rw [← List.mem_reverse, hdata2]
      exact hp
    have := List.mem_takeWhile_imp hmem
    simp at this

/-- Witness for C10 at a concrete import. -/
theorem C10_connections_basename_witness :
    (("f.py", "os") ∈ parse_python_imports "import os" "f.py") ∧
    ("f.py", "os").1 = "f.py" :=
  ⟨by decide, C10_connections_basename.1 "import os" "f.py" ("f.py", "os") (by decide)⟩

end Intellens
